import Mathlib

/-!
Shallow embedding of the Dragon Nest enhancement simulator
(`src/src/app/page.tsx`).  The source file holds two near-duplicate page
components: a richer variant (tiered jelly/essence/diamond secondary
currencies, `ENHANCE_COST = 5`) and a simple variant (`damageRate`
aggregate, `ENHANCE_COST = 75`).  JavaScript numbers are embedded as exact
rationals (`ℚ`); levels and per-level penalties are integers (`ℤ`).  Where
a claim is about IEEE-754 double behaviour, an explicit round-to-nearest,
ties-to-even rounding function on `ℚ` is used.
-/

/-- One row of `ENHANCEMENT_RULES` (page.tsx lines 5-9 / 503-507). -/
structure EnhancementRules where
  successRate : ℚ
  damageRate : ℚ
  failurePenalty : ℤ
deriving DecidableEq

/-- Structure `EnhancementResult` (page.tsx lines 11-16 / 509-514). -/
structure EnhancementResult where
  success : Bool
  newLevel : ℤ
  damageOccurred : Bool
  goldSpent : ℚ
deriving DecidableEq

/-- Structure `EnhancementStats` of the richer variant (page.tsx lines 18-26). -/
structure EnhancementStats where
  totalAttempts : ℕ
  totalGoldSpent : ℚ
  successRate : ℚ
  jellyCost : ℚ
  essenceCost : ℚ
  diamondCost : ℚ
  finalLevel : ℤ
deriving DecidableEq

/-- Structure `EnhancementStats` of the simple variant (page.tsx lines 516-522). -/
structure EnhancementStatsSimple where
  totalAttempts : ℕ
  totalGoldSpent : ℚ
  successRate : ℚ
  damageRate : ℚ
  finalLevel : ℤ
deriving DecidableEq

/-- Table `ENHANCEMENT_RULES` of the richer variant (page.tsx lines 28-44):
a `Record<number, EnhancementRules>` with keys 1..15; lookup at any other
key is `undefined`, embedded as `none`. -/
def ENHANCEMENT_RULES (level : ℤ) : Option EnhancementRules :=
  if level = 1 then some ⟨1.00, 0.00, 0⟩
  else if level = 2 then some ⟨1.00, 0.00, 0⟩
  else if level = 3 then some ⟨1.00, 0.00, 0⟩
  else if level = 4 then some ⟨1.00, 0.00, 0⟩
  else if level = 5 then some ⟨1.00, 0.00, 0⟩
  else if level = 6 then some ⟨1.00, 0.00, 0⟩
  else if level = 7 then some ⟨0.45, 0.25, -1⟩
  else if level = 8 then some ⟨0.40, 0.25, -2⟩
  else if level = 9 then some ⟨0.35, 0.25, 0⟩
  else if level = 10 then some ⟨0.30, 0.25, -1⟩
  else if level = 11 then some ⟨0.25, 0.25, -2⟩
  else if level = 12 then some ⟨0.20, 0.25, -2⟩
  else if level = 13 then some ⟨0.15, 0.25, -2⟩
  else if level = 14 then some ⟨0.05, 0.25, -2⟩
  else if level = 15 then some ⟨0.01, 0.25, -2⟩
  else none

/-- Table `ENHANCEMENT_RULES` of the simple variant (page.tsx lines 524-540);
the table entries are identical to the richer variant's. -/
def ENHANCEMENT_RULES_SIMPLE (level : ℤ) : Option EnhancementRules :=
  if level = 1 then some ⟨1.00, 0.00, 0⟩
  else if level = 2 then some ⟨1.00, 0.00, 0⟩
  else if level = 3 then some ⟨1.00, 0.00, 0⟩
  else if level = 4 then some ⟨1.00, 0.00, 0⟩
  else if level = 5 then some ⟨1.00, 0.00, 0⟩
  else if level = 6 then some ⟨1.00, 0.00, 0⟩
  else if level = 7 then some ⟨0.45, 0.25, -1⟩
  else if level = 8 then some ⟨0.40, 0.25, -2⟩
  else if level = 9 then some ⟨0.35, 0.25, 0⟩
  else if level = 10 then some ⟨0.30, 0.25, -1⟩
  else if level = 11 then some ⟨0.25, 0.25, -2⟩
  else if level = 12 then some ⟨0.20, 0.25, -2⟩
  else if level = 13 then some ⟨0.15, 0.25, -2⟩
  else if level = 14 then some ⟨0.05, 0.25, -2⟩
  else if level = 15 then some ⟨0.01, 0.25, -2⟩
  else none

/-- Constant `ENHANCE_COST` of the richer variant (page.tsx line 46). -/
def ENHANCE_COST : ℚ := 5

/-- Constant `ENHANCE_COST` of the simple variant (page.tsx line 542). -/
def ENHANCE_COST_SIMPLE : ℚ := 75

/-- The accumulator loop of `calculateReachTargetChance` (page.tsx lines
50-55): `chance = 1; for (lvl = current; lvl < target; lvl++) { rules =
ENHANCEMENT_RULES[lvl]; if (!rules) return 0; chance *= rules.successRate }`.
The fuel argument is the number of remaining iterations `target - lvl`. -/
def chanceLoop : ℤ → ℚ → ℕ → ℚ
  | _, acc, 0 => acc
  | lvl, acc, n + 1 =>
    match ENHANCEMENT_RULES lvl with
    | none => 0
    | some rules => chanceLoop (lvl + 1) (acc * rules.successRate) n

/-- Function `calculateReachTargetChance` of the richer variant (page.tsx lines
48-57), with JavaScript numbers embedded as exact rationals. -/
def calculateReachTargetChance (current target : ℤ) : ℚ :=
  if target ≤ current then 1
  else chanceLoop current 1 (target - current).toNat

/-- The loop of the simple variant's `calculateReachTargetChance`
(page.tsx lines 546-551). -/
def chanceLoopSimple : ℤ → ℚ → ℕ → ℚ
  | _, acc, 0 => acc
  | lvl, acc, n + 1 =>
    match ENHANCEMENT_RULES_SIMPLE lvl with
    | none => 0
    | some rules => chanceLoopSimple (lvl + 1) (acc * rules.successRate) n

/-- Function `calculateReachTargetChance` of the simple variant (page.tsx lines
544-553). -/
def calculateReachTargetChanceSimple (current target : ℤ) : ℚ :=
  if target ≤ current then 1
  else chanceLoopSimple current 1 (target - current).toNat

/-- Function `enhance` of the richer variant (page.tsx lines 89-105).  The two
`Math.random()` draws are passed explicitly; the `throw` on a missing rule
is embedded as `none`. -/
def enhance (rSuccess rDamage : ℚ) (level : ℤ) : Option EnhancementResult :=
  match ENHANCEMENT_RULES level with
  | none => none
  | some rules =>
    let success : Bool := decide (rSuccess < rules.successRate)
    let damageOccurred : Bool := decide (rDamage < rules.damageRate)
    let newLevel : ℤ := if success then level + 1 else max 1 (level + rules.failurePenalty)
    some ⟨success, newLevel, damageOccurred, ENHANCE_COST⟩

/-- Jelly tier of the richer variant's `calculateStats`
(page.tsx lines 128-133), keyed by an entry's `newLevel`. -/
def jellyPerAttempt (level : ℤ) : ℚ :=
  if level ≤ 3 then 18
  else if level ≤ 6 then 18
  else if level ≤ 10 then 18
  else if level ≤ 13 then 18
  else if level ≤ 14 then 18
  else 24

/-- Essence-of-life tier of the richer variant's `calculateStats`
(page.tsx lines 140-145). -/
def essencePerAttempt (level : ℤ) : ℚ :=
  if level ≤ 3 then 1
  else if level ≤ 6 then 2
  else if level ≤ 10 then 3
  else if level ≤ 13 then 4
  else if level ≤ 14 then 5
  else 6

/-- Diamond tier of the richer variant's `calculateStats`
(page.tsx lines 152-157). -/
def diamondPerAttempt (level : ℤ) : ℚ :=
  if level ≤ 3 then 1
  else if level ≤ 6 then 2
  else if level ≤ 10 then 2
  else if level ≤ 13 then 3
  else if level ≤ 14 then 4
  else 6

/-- Function `calculateStats` of the richer variant (page.tsx lines 107-170).
Note line 122: `totalGoldSpent` adds the constant `ENHANCE_COST` per
entry, ignoring the entry's recorded `goldSpent`. -/
def calculateStats (attempts : List EnhancementResult) : EnhancementStats :=
  if h : attempts = [] then ⟨0, 0, 0, 0, 0, 0, 1⟩
  else
    let totalAttempts := attempts.length
    let successfulAttempts := (attempts.filter (fun a => a.success)).length
    let totalGoldSpent := attempts.foldl (fun sum _ => sum + ENHANCE_COST) 0
    let jellyCost := attempts.foldl (fun sum a => sum + jellyPerAttempt a.newLevel) 0
    let essenceCost := attempts.foldl (fun sum a => sum + essencePerAttempt a.newLevel) 0
    let diamondCost := attempts.foldl (fun sum a => sum + diamondPerAttempt a.newLevel) 0
    ⟨totalAttempts, totalGoldSpent,
      (successfulAttempts : ℚ) / (totalAttempts : ℚ),
      jellyCost, essenceCost, diamondCost, (attempts.getLast h).newLevel⟩

/-- Function `calculateStats` of the simple variant (page.tsx lines 600-623).
Note line 614: `totalGoldSpent` sums the entries' recorded `goldSpent`. -/
def calculateStatsSimple (attempts : List EnhancementResult) : EnhancementStatsSimple :=
  if h : attempts = [] then ⟨0, 0, 0, 0, 1⟩
  else
    let totalAttempts := attempts.length
    let successfulAttempts := (attempts.filter (fun a => a.success)).length
    let damagedAttempts := (attempts.filter (fun a => a.damageOccurred)).length
    let totalGoldSpent := attempts.foldl (fun sum a => sum + a.goldSpent) 0
    ⟨totalAttempts, totalGoldSpent,
      (successfulAttempts : ℚ) / (totalAttempts : ℚ),
      (damagedAttempts : ℚ) / (totalAttempts : ℚ),
      (attempts.getLast h).newLevel⟩

/-- The running level after the first `i` outcomes of a batch, starting
from `start` (`start` itself when `i = 0` or the log is shorter). -/
def levelAfter : ℤ → List EnhancementResult → ℕ → ℤ
  | start, _, 0 => start
  | start, [], _ + 1 => start
  | _, r :: rest, j + 1 => levelAfter r.newLevel rest j

/-- The loop of `handleSetTotalAttempts` (page.tsx lines 263-270):
`for (i = 0; i < totalAttemptsInput; i++) { if (tempLevel >= targetLevel
|| tempLevel >= 15) break; result = enhance(tempLevel); push; tempLevel =
result.newLevel }`.  `rand` supplies the pairs of `Math.random()` draws;
a `throw` inside `enhance` propagates as `none`. -/
def runBatchAux (rand : ℕ → ℚ × ℚ) (target : ℤ) : ℕ → ℤ → Option (ℤ × List EnhancementResult)
  | 0, level => some (level, [])
  | fuel + 1, level =>
    if target ≤ level ∨ 15 ≤ level then some (level, [])
    else
      (enhance (rand 0).1 (rand 0).2 level).bind fun r =>
        (runBatchAux (fun n => rand (n + 1)) target fuel r.newLevel).map
          fun p => (p.1, r :: p.2)

/-- Function `runBatch(startLevel, target, maxAttempts)`: the batch driver
extracted from `handleSetTotalAttempts` (page.tsx lines 261-275),
returning the final running level and the newly produced outcomes. -/
def runBatch (rand : ℕ → ℚ × ℚ) (startLevel target : ℤ) (maxAttempts : ℕ) :
    Option (ℤ × List EnhancementResult) :=
  runBatchAux rand target maxAttempts startLevel

/-- The binary64 significand-range shift for a positive rational `n / d`:
the smallest `s` with `2^52 * d ≤ n * 2^s`, found by repeated doubling
(defined for values at most `2^52`; every value arising here is in
`(0, 1]`).  The fuel bounds the doublings; 200 suffices here. -/
def findShift : ℕ → ℕ → ℕ → ℕ
  | 0, _, _ => 0
  | fuel + 1, n, d => if 2 ^ 52 * d ≤ n then 0 else findShift fuel (2 * n) d + 1

/-- Round `a / d` to the nearest natural number, ties to even. -/
def roundNatNearestEven (a d : ℕ) : ℕ :=
  let f := a / d
  let r := a % d
  if 2 * r < d then f
  else if d < 2 * r then f + 1
  else if f % 2 = 0 then f else f + 1

/-- The IEEE-754 binary64 value nearest the positive rational `n / d`
(53-bit significand, round to nearest, ties to even), returned as a pair
`(mantissa, shift)` denoting `mantissa / 2^shift`.  This is the value a
JavaScript `number` takes for such a quantity; the inputs of interest are
normal and in `(0, 1]`, far from overflow and underflow. -/
def fpApprox (n d : ℕ) : ℕ × ℕ :=
  let s := findShift 200 n d
  (roundNatNearestEven (n * 2 ^ s) d, s)

/-- The rational value of a `(mantissa, shift)` pair. -/
def fpVal (p : ℕ × ℕ) : ℚ := (p.1 : ℚ) / 2 ^ p.2

/-- IEEE-754 binary64 multiplication on `(mantissa, shift)` pairs: the
exact product, rounded back to the nearest double. -/
def fpMul (x y : ℕ × ℕ) : ℕ × ℕ := fpApprox (x.1 * y.1) (2 ^ (x.2 + y.2))

/-- The `successRate` column of `ENHANCEMENT_RULES` (page.tsx lines
28-44) as the exact decimal fractions written in the source: `1.00` is
`100/100`, `0.45` is `45/100`, and so on. -/
def successRateFrac (level : ℤ) : Option (ℕ × ℕ) :=
  if level = 1 then some (100, 100)
  else if level = 2 then some (100, 100)
  else if level = 3 then some (100, 100)
  else if level = 4 then some (100, 100)
  else if level = 5 then some (100, 100)
  else if level = 6 then some (100, 100)
  else if level = 7 then some (45, 100)
  else if level = 8 then some (40, 100)
  else if level = 9 then some (35, 100)
  else if level = 10 then some (30, 100)
  else if level = 11 then some (25, 100)
  else if level = 12 then some (20, 100)
  else if level = 13 then some (15, 100)
  else if level = 14 then some (5, 100)
  else if level = 15 then some (1, 100)
  else none

/-- The loop of `calculateReachTargetChance` under IEEE-754 double
semantics: each stored `successRate` literal is the nearest double and
each multiplication rounds to the nearest double, as JavaScript does.
`(0, 0)` (the exactly representable 0) is returned on a missing rule. -/
def chanceLoopFP : ℤ → ℕ × ℕ → ℕ → ℕ × ℕ
  | _, acc, 0 => acc
  | lvl, acc, n + 1 =>
    match successRateFrac lvl with
    | none => (0, 0)
    | some rate => chanceLoopFP (lvl + 1) (fpMul acc (fpApprox rate.1 rate.2)) n

/-- Function `calculateReachTargetChance` under IEEE-754 double semantics. -/
def calculateReachTargetChanceFP (current target : ℤ) : ℚ :=
  if target ≤ current then 1
  else fpVal (chanceLoopFP current (fpApprox 1 1) (target - current).toNat)

/-- The `successRate` at a level, `0` when no rule is defined. -/
def successRateOf (level : ℤ) : ℚ :=
  match ENHANCEMENT_RULES level with
  | none => 0
  | some rules => rules.successRate

example : calculateReachTargetChance 7 9 = 0.18 := by with_unfolding_all decide
example : calculateReachTargetChance 5 3 = 1 := by with_unfolding_all decide
example : calculateReachTargetChance 14 17 = 0 := by with_unfolding_all decide
example : enhance 0 0 15 = some ⟨true, 16, true, 5⟩ := by with_unfolding_all decide
example : fpApprox 45 100 = (8106479329266893, 54) := by decide
example : fpApprox 40 100 = (7205759403792794, 54) := by decide
example : fpApprox 18 100 = (6485183463413514, 55) := by decide
example : fpApprox 1 1 = (2 ^ 52, 52) := by decide
example : chanceLoopFP 7 (fpApprox 1 1) 2 = (6485183463413515, 55) := by decide

/-! ### Basic facts about the rule table and the resolver -/

lemma rules_none_of_out {level : ℤ} (h : level < 1 ∨ 15 < level) :
    ENHANCEMENT_RULES level = none := by
  unfold ENHANCEMENT_RULES
  repeat rw [if_neg (by omega)]

lemma rules_isSome_of {level : ℤ} (h1 : 1 ≤ level) (h15 : level ≤ 15) :
    (ENHANCEMENT_RULES level).isSome = true := by
  interval_cases level <;> rfl

lemma rules_isSome_iff (level : ℤ) :
    (ENHANCEMENT_RULES level).isSome = true ↔ 1 ≤ level ∧ level ≤ 15 := by
  constructor
  · intro h
    by_contra hc
    rw [rules_none_of_out (by omega)] at h
    exact Bool.noConfusion h
  · intro h
    exact rules_isSome_of h.1 h.2

lemma rules_penalty_bounds {level : ℤ} {ru : EnhancementRules}
    (h : ENHANCEMENT_RULES level = some ru) :
    -2 ≤ ru.failurePenalty ∧ ru.failurePenalty ≤ 0 := by
  have hrange : 1 ≤ level ∧ level ≤ 15 := by
    by_contra hc
    rw [rules_none_of_out (by omega)] at h
    exact Option.noConfusion h
  obtain ⟨h1, h15⟩ := hrange
  interval_cases level <;> (injection h with h2; subst h2; exact ⟨by decide, by decide⟩)

lemma rules_le_six {level : ℤ} (h1 : 1 ≤ level) (h6 : level ≤ 6) :
    ENHANCEMENT_RULES level = some ⟨1.00, 0.00, 0⟩ := by
  interval_cases level <;> rfl

lemma enhance_eq_some {r₁ r₂ : ℚ} {level : ℤ} {out : EnhancementResult}
    (h : enhance r₁ r₂ level = some out) :
    ∃ ru, ENHANCEMENT_RULES level = some ru ∧
      out = ⟨decide (r₁ < ru.successRate),
             if r₁ < ru.successRate then level + 1 else max 1 (level + ru.failurePenalty),
             decide (r₂ < ru.damageRate), ENHANCE_COST⟩ := by
  unfold enhance at h
  cases hru : ENHANCEMENT_RULES level with
  | none => rw [hru] at h; exact Option.noConfusion h
  | some ru =>
    rw [hru] at h
    refine ⟨ru, rfl, ?_⟩
    injection h with h2
    rw [← h2]
    by_cases hs : r₁ < ru.successRate
    · simp [hs]
    · simp [hs]

lemma enhance_isSome {level : ℤ} (h1 : 1 ≤ level) (h15 : level ≤ 15) (r₁ r₂ : ℚ) :
    ∃ out, enhance r₁ r₂ level = some out := by
  have hsome : (ENHANCEMENT_RULES level).isSome = true :=
    (rules_isSome_iff level).mpr ⟨h1, h15⟩
  cases hru : ENHANCEMENT_RULES level with
  | none => rw [hru] at hsome; exact Bool.noConfusion hsome
  | some ru =>
    refine ⟨⟨decide (r₁ < ru.successRate),
      if decide (r₁ < ru.successRate) = true then level + 1
      else max 1 (level + ru.failurePenalty),
      decide (r₂ < ru.damageRate), ENHANCE_COST⟩, ?_⟩
    unfold enhance
    rw [hru]

lemma enhance_none_iff (r₁ r₂ : ℚ) (level : ℤ) :
    enhance r₁ r₂ level = none ↔ ¬(1 ≤ level ∧ level ≤ 15) := by
  constructor
  · intro h hrange
    obtain ⟨out, hout⟩ := enhance_isSome hrange.1 hrange.2 r₁ r₂
    rw [h] at hout
    exact Option.noConfusion hout
  · intro hrange
    cases hout : enhance r₁ r₂ level with
    | none => rfl
    | some out =>
      obtain ⟨ru, hru, _⟩ := enhance_eq_some hout
      exact absurd ((rules_isSome_iff level).mp (by rw [hru]; rfl)) hrange

lemma enhance_newLevel_bounds {r₁ r₂ : ℚ} {level : ℤ} {out : EnhancementResult}
    (h1 : 1 ≤ level) (h14 : level ≤ 14) (h : enhance r₁ r₂ level = some out) :
    1 ≤ out.newLevel ∧ out.newLevel ≤ 15 := by
  obtain ⟨ru, hru, hout⟩ := enhance_eq_some h
  obtain ⟨hp1, hp2⟩ := rules_penalty_bounds hru
  subst hout
  by_cases hs : r₁ < ru.successRate
  · simp only [if_pos hs]
    constructor <;> omega
  · simp only [if_neg hs]
    constructor
    · exact le_max_left 1 _
    · exact max_le (by omega) (by omega)

/-- C7: `resolveAttempt(level)` fails with an invalid-level error exactly
when `level` is outside [1,15]; for every level in [1,15] and every pair
of random draws it returns a populated outcome without raising, on both
the success and the failure branch. -/
theorem claim_C7 (level : ℤ) (r₁ r₂ : ℚ) :
    (enhance r₁ r₂ level = none ↔ ¬(1 ≤ level ∧ level ≤ 15)) ∧
    (1 ≤ level → level ≤ 15 → ∃ out, enhance r₁ r₂ level = some out) :=
  ⟨enhance_none_iff r₁ r₂ level, fun h1 h15 => enhance_isSome h1 h15 r₁ r₂⟩

theorem claim_C7_witness :
    (1 ≤ (7 : ℤ)) ∧ ((7 : ℤ) ≤ 15) ∧ (∃ out, enhance 0 0 7 = some out) :=
  ⟨by decide, by decide, (claim_C7 7 0 0).2 (by decide) (by decide)⟩

/-- C8: for every level in [1,6] and every pair of random draws in
[0,1), the attempt succeeds and no damage occurs: the outcome is
independent of the draws (which are still consumed). -/
theorem claim_C8 (level : ℤ) (h1 : 1 ≤ level) (h6 : level ≤ 6)
    (r₁ r₂ : ℚ) (hr₁0 : 0 ≤ r₁) (hr₁1 : r₁ < 1) (hr₂0 : 0 ≤ r₂) (hr₂1 : r₂ < 1) :
    ∃ out, enhance r₁ r₂ level = some out ∧
      out.success = true ∧ out.damageOccurred = false := by
  have hru := rules_le_six h1 h6
  refine ⟨⟨true, level + 1, false, ENHANCE_COST⟩, ?_, rfl, rfl⟩
  unfold enhance
  rw [hru]
  have hs : decide (r₁ < (⟨1.00, 0.00, 0⟩ : EnhancementRules).successRate) = true := by
    simp only [decide_eq_true_eq]
    exact lt_of_lt_of_le hr₁1 (by norm_num)
  have hd : decide (r₂ < (⟨1.00, 0.00, 0⟩ : EnhancementRules).damageRate) = false := by
    simp only [decide_eq_false_iff_not, not_lt]
    exact le_trans (by norm_num) hr₂0
  simp only [hs, hd, if_true, Option.some.injEq]

theorem claim_C8_witness :
    (1 ≤ (3 : ℤ)) ∧ ((3 : ℤ) ≤ 6) ∧
    (0 ≤ (0 : ℚ)) ∧ ((0 : ℚ) < 1) ∧
    (∃ out, enhance 0 0 3 = some out ∧ out.success = true ∧ out.damageOccurred = false) :=
  ⟨by decide, by decide, le_refl 0, by norm_num,
    claim_C8 3 (by decide) (by decide) 0 0 (le_refl 0) (by norm_num) (le_refl 0) (by norm_num)⟩

/-- C2 (amended): for every level in [1,14] -- the levels at which the
callers resolve attempts -- the resulting level is in [1,15] for every
pair of draws; moreover, for every level in [1,15] a failed attempt never
produces a level below 1.  At level 15 itself a successful draw yields
level 16: the success branch is not clamped. -/
theorem claim_C2 (level : ℤ) (h1 : 1 ≤ level) (r₁ r₂ : ℚ) :
    (level ≤ 14 → ∀ out, enhance r₁ r₂ level = some out →
      1 ≤ out.newLevel ∧ out.newLevel ≤ 15) ∧
    (level ≤ 15 → ∀ out, enhance r₁ r₂ level = some out → out.success = false →
      1 ≤ out.newLevel) := by
  constructor
  · intro h14 out hout
    exact enhance_newLevel_bounds h1 h14 hout
  · intro _ out hout hfail
    obtain ⟨ru, hru, hout2⟩ := enhance_eq_some hout
    subst hout2
    by_cases hs : r₁ < ru.successRate
    · simp [hs] at hfail
    · simp only [if_neg hs]
      exact le_max_left 1 _

theorem claim_C2_witness :
    (1 ≤ (7 : ℤ)) ∧ ((7 : ℤ) ≤ 14) ∧
    (∀ out, enhance 0 0 7 = some out → 1 ≤ out.newLevel ∧ out.newLevel ≤ 15) :=
  ⟨by decide, by decide, (claim_C2 7 (by decide) 0 0).1 (by decide)⟩

/-- C2, as stated, is false: at level 15 (which has a defined rule) a
successful draw produces level 16, outside [1,15]. -/
theorem claim_C2_counterexample :
    ¬ ∀ (level : ℤ), 1 ≤ level → level ≤ 15 →
        ∀ (r₁ r₂ : ℚ), 0 ≤ r₁ → r₁ < 1 → 0 ≤ r₂ → r₂ < 1 →
          ∀ out, enhance r₁ r₂ level = some out →
            1 ≤ out.newLevel ∧ out.newLevel ≤ 15 := by
  intro h
  have h16 : enhance (0 : ℚ) 0 15 = some ⟨true, 16, true, 5⟩ := by
    with_unfolding_all decide
  have := h 15 (by decide) (by decide) 0 0 (le_refl 0) (by norm_num) (le_refl 0) (by norm_num)
    ⟨true, 16, true, 5⟩ h16
  exact absurd this.2 (by decide)

/-! ### Fold lemmas for the statistics accumulator -/

lemma foldl_add_map (f : EnhancementResult → ℚ) :
    ∀ (l : List EnhancementResult) (c : ℚ),
      List.foldl (fun sum a => sum + f a) c l = c + (l.map f).sum
  | [], c => by simp
  | a :: l, c => by
    rw [List.foldl_cons, foldl_add_map f l (c + f a), List.map_cons, List.sum_cons]
    ring

lemma foldl_add_const (q : ℚ) :
    ∀ (l : List EnhancementResult) (c : ℚ),
      List.foldl (fun sum _ => sum + q) c l = c + l.length * q
  | [], c => by simp
  | a :: l, c => by
    rw [List.foldl_cons, foldl_add_const q l (c + q), List.length_cons]
    push_cast
    ring

/-- C3 (amended): the two variants' primary-currency accounting is the
mirror image of the claim.  The richer variant's `calculateStats` adds
the constant `ENHANCE_COST` per entry (ignoring each entry's recorded
`goldSpent`), so its total is `totalAttempts * ENHANCE_COST`; the simple
variant sums the literally recorded `goldSpent` of each entry. -/
theorem claim_C3 (log : List EnhancementResult) :
    (calculateStats log).totalGoldSpent = (log.length : ℚ) * ENHANCE_COST ∧
    (calculateStatsSimple log).totalGoldSpent = (log.map (fun a => a.goldSpent)).sum := by
  by_cases h : log = []
  · subst h
    exact ⟨by with_unfolding_all decide, by with_unfolding_all decide⟩
  · constructor
    · unfold calculateStats
      rw [dif_neg h]
      show List.foldl (fun sum _ => sum + ENHANCE_COST) 0 log = _
      exact (foldl_add_const ENHANCE_COST log 0).trans (by ring)
    · unfold calculateStatsSimple
      rw [dif_neg h]
      show List.foldl (fun sum a => sum + a.goldSpent) 0 log = _
      exact (foldl_add_map (fun a => a.goldSpent) log 0).trans (by ring)

/-- C3, as stated, is false: it swaps the two variants.  On a log with a
single entry whose recorded `goldSpent` is 0, the richer variant reports
5 (the constant `ENHANCE_COST`), not the recorded sum 0. -/
theorem claim_C3_counterexample :
    ¬ ∀ log : List EnhancementResult,
        (calculateStats log).totalGoldSpent = (log.map (fun a => a.goldSpent)).sum ∧
        (calculateStatsSimple log).totalGoldSpent = (log.length : ℚ) * ENHANCE_COST_SIMPLE := by
  intro h
  have h0 := (h [⟨true, 2, false, 0⟩]).1
  have h5 : (calculateStats [⟨true, 2, false, (0 : ℚ)⟩]).totalGoldSpent = 5 := by
    with_unfolding_all decide
  have hsum : (([⟨true, 2, false, (0 : ℚ)⟩] : List EnhancementResult).map
      (fun a => a.goldSpent)).sum = 0 := by
    with_unfolding_all decide
  rw [h5, hsum] at h0
  exact absurd h0 (by norm_num)

/-- C4: the richer variant's three secondary-currency totals are the sums
over all log entries of the tiered per-attempt amounts keyed by each
entry's own `newLevel`, and the tier functions realise the six-tier
table: ≤3 ↦ (18,1,1), 4-6 ↦ (18,2,2), 7-10 ↦ (18,3,2), 11-13 ↦ (18,4,3),
14 ↦ (18,5,4), 15 ↦ (24,6,6). -/
theorem claim_C4 (log : List EnhancementResult) :
    (calculateStats log).jellyCost = (log.map (fun a => jellyPerAttempt a.newLevel)).sum ∧
    (calculateStats log).essenceCost = (log.map (fun a => essencePerAttempt a.newLevel)).sum ∧
    (calculateStats log).diamondCost = (log.map (fun a => diamondPerAttempt a.newLevel)).sum ∧
    (∀ n : ℤ, n ≤ 3 →
      jellyPerAttempt n = 18 ∧ essencePerAttempt n = 1 ∧ diamondPerAttempt n = 1) ∧
    (∀ n : ℤ, 4 ≤ n → n ≤ 6 →
      jellyPerAttempt n = 18 ∧ essencePerAttempt n = 2 ∧ diamondPerAttempt n = 2) ∧
    (∀ n : ℤ, 7 ≤ n → n ≤ 10 →
      jellyPerAttempt n = 18 ∧ essencePerAttempt n = 3 ∧ diamondPerAttempt n = 2) ∧
    (∀ n : ℤ, 11 ≤ n → n ≤ 13 →
      jellyPerAttempt n = 18 ∧ essencePerAttempt n = 4 ∧ diamondPerAttempt n = 3) ∧
    (jellyPerAttempt 14 = 18 ∧ essencePerAttempt 14 = 5 ∧ diamondPerAttempt 14 = 4) ∧
    (jellyPerAttempt 15 = 24 ∧ essencePerAttempt 15 = 6 ∧ diamondPerAttempt 15 = 6) := by
  refine ⟨?_, ?_, ?_, ?_, ?_, ?_, ?_,
    ⟨by with_unfolding_all decide, by with_unfolding_all decide, by with_unfolding_all decide⟩,
    ⟨by with_unfolding_all decide, by with_unfolding_all decide, by with_unfolding_all decide⟩⟩
  · by_cases h : log = []
    · subst h; exact by with_unfolding_all decide
    · unfold calculateStats
      rw [dif_neg h]
      show List.foldl (fun sum a => sum + jellyPerAttempt a.newLevel) 0 log = _
      exact (foldl_add_map (fun a => jellyPerAttempt a.newLevel) log 0).trans (by ring)
  · by_cases h : log = []
    · subst h; exact by with_unfolding_all decide
    · unfold calculateStats
      rw [dif_neg h]
      show List.foldl (fun sum a => sum + essencePerAttempt a.newLevel) 0 log = _
      exact (foldl_add_map (fun a => essencePerAttempt a.newLevel) log 0).trans (by ring)
  · by_cases h : log = []
    · subst h; exact by with_unfolding_all decide
    · unfold calculateStats
      rw [dif_neg h]
      show List.foldl (fun sum a => sum + diamondPerAttempt a.newLevel) 0 log = _
      exact (foldl_add_map (fun a => diamondPerAttempt a.newLevel) log 0).trans (by ring)
  · intro n hn
    have c3 : n ≤ 3 := by omega
    unfold jellyPerAttempt essencePerAttempt diamondPerAttempt
    rw [if_pos c3, if_pos c3, if_pos c3]
    exact ⟨rfl, rfl, rfl⟩
  · intro n hn4 hn6
    have c3 : ¬n ≤ 3 := by omega
    have c6 : n ≤ 6 := by omega
    unfold jellyPerAttempt essencePerAttempt diamondPerAttempt
    rw [if_neg c3, if_pos c6, if_neg c3, if_pos c6, if_neg c3, if_pos c6]
    exact ⟨rfl, rfl, rfl⟩
  · intro n hn7 hn10
    have c3 : ¬n ≤ 3 := by omega
    have c6 : ¬n ≤ 6 := by omega
    have c10 : n ≤ 10 := by omega
    unfold jellyPerAttempt essencePerAttempt diamondPerAttempt
    rw [if_neg c3, if_neg c6, if_pos c10, if_neg c3, if_neg c6, if_pos c10,
      if_neg c3, if_neg c6, if_pos c10]
    exact ⟨rfl, rfl, rfl⟩
  · intro n hn11 hn13
    have c3 : ¬n ≤ 3 := by omega
    have c6 : ¬n ≤ 6 := by omega
    have c10 : ¬n ≤ 10 := by omega
    have c13 : n ≤ 13 := by omega
    unfold jellyPerAttempt essencePerAttempt diamondPerAttempt
    rw [if_neg c3, if_neg c6, if_neg c10, if_pos c13, if_neg c3, if_neg c6,
      if_neg c10, if_pos c13, if_neg c3, if_neg c6, if_neg c10, if_pos c13]
    exact ⟨rfl, rfl, rfl⟩

theorem claim_C4_witness :
    ((2 : ℤ) ≤ 3 ∧
      jellyPerAttempt 2 = 18 ∧ essencePerAttempt 2 = 1 ∧ diamondPerAttempt 2 = 1) ∧
    ((4 : ℤ) ≤ 5 ∧ (5 : ℤ) ≤ 6 ∧
      jellyPerAttempt 5 = 18 ∧ essencePerAttempt 5 = 2 ∧ diamondPerAttempt 5 = 2) :=
  ⟨⟨by decide, (claim_C4 []).2.2.2.1 2 (by decide)⟩,
   ⟨by decide, by decide, (claim_C4 []).2.2.2.2.1 5 (by decide) (by decide)⟩⟩

/-- C6: `aggregate` returns `totalAttempts = length`, `successRate =
successes / totalAttempts` and `finalLevel = newLevel` of the last entry;
on the empty log it returns the zeroed record with `finalLevel = 1`. -/
theorem claim_C6 (log : List EnhancementResult) :
    (calculateStats log).totalAttempts = log.length ∧
    (calculateStats log).successRate =
      ((log.filter (fun a => a.success)).length : ℚ) / (log.length : ℚ) ∧
    (∀ last, log.getLast? = some last → (calculateStats log).finalLevel = last.newLevel) ∧
    calculateStats [] = ⟨0, 0, 0, 0, 0, 0, 1⟩ := by
  refine ⟨?_, ?_, ?_, by with_unfolding_all decide⟩
  · by_cases h : log = []
    · subst h; rfl
    · unfold calculateStats
      rw [dif_neg h]
  · by_cases h : log = []
    · subst h
      show (0 : ℚ) = _
      norm_num
    · unfold calculateStats
      rw [dif_neg h]
  · intro last hlast
    have h : log ≠ [] := by
      intro he
      subst he
      exact Option.noConfusion hlast
    unfold calculateStats
    rw [dif_neg h]
    show (log.getLast h).newLevel = last.newLevel
    rw [List.getLast?_eq_getLast log h] at hlast
    injection hlast with h2
    rw [h2]

theorem claim_C6_witness :
    (([⟨true, 3, false, 5⟩] : List EnhancementResult).getLast? =
      some ⟨true, 3, false, 5⟩) ∧
    (calculateStats [⟨true, 3, false, 5⟩]).finalLevel = (3 : ℤ) :=
  ⟨by with_unfolding_all decide,
   (claim_C6 [⟨true, 3, false, 5⟩]).2.2.1 ⟨true, 3, false, 5⟩ (by with_unfolding_all decide)⟩

/-! ### The reach-target probability loop as a product -/

lemma chanceLoop_succ_none {lvl : ℤ} (h : ENHANCEMENT_RULES lvl = none) (acc : ℚ) (n : ℕ) :
    chanceLoop lvl acc (n + 1) = 0 := by
  unfold chanceLoop
  rw [h]

lemma chanceLoop_succ_some {lvl : ℤ} {ru : EnhancementRules}
    (h : ENHANCEMENT_RULES lvl = some ru) (acc : ℚ) (n : ℕ) :
    chanceLoop lvl acc (n + 1) = chanceLoop (lvl + 1) (acc * ru.successRate) n := by
  conv_lhs => unfold chanceLoop
  rw [h]

lemma chanceLoop_missing :
    ∀ (n : ℕ) (lvl : ℤ) (acc : ℚ),
      (∃ k : ℕ, k < n ∧ ENHANCEMENT_RULES (lvl + k) = none) →
      chanceLoop lvl acc n = 0 := by
  intro n
  induction n with
  | zero =>
    intro lvl acc ⟨k, hk, _⟩
    omega
  | succ n ih =>
    intro lvl acc ⟨k, hk, hnone⟩
    cases hru : ENHANCEMENT_RULES lvl with
    | none => exact chanceLoop_succ_none hru acc n
    | some ru =>
      rw [chanceLoop_succ_some hru]
      apply ih
      cases k with
      | zero =>
        rw [Nat.cast_zero, add_zero] at hnone
        rw [hru] at hnone
        exact Option.noConfusion hnone
      | succ k =>
        refine ⟨k, by omega, ?_⟩
        rwa [show lvl + 1 + (k : ℤ) = lvl + ((k + 1 : ℕ) : ℤ) by push_cast; ring]

lemma chanceLoop_all_some :
    ∀ (n : ℕ) (lvl : ℤ) (acc : ℚ),
      (∀ k : ℕ, k < n → (ENHANCEMENT_RULES (lvl + k)).isSome = true) →
      chanceLoop lvl acc n = acc * ∏ k in Finset.range n, successRateOf (lvl + k) := by
  intro n
  induction n with
  | zero =>
    intro lvl acc _
    rw [Finset.range_zero, Finset.prod_empty, mul_one]
    rfl
  | succ n ih =>
    intro lvl acc hall
    have h0 : (ENHANCEMENT_RULES lvl).isSome = true := by
      have := hall 0 (Nat.succ_pos n)
      rwa [Nat.cast_zero, add_zero] at this
    obtain ⟨ru, hru⟩ := Option.isSome_iff_exists.mp h0
    have hrec : ∀ k : ℕ, k < n → (ENHANCEMENT_RULES ((lvl + 1) + k)).isSome = true := by
      intro k hk
      have := hall (k + 1) (by omega)
      rwa [show lvl + ((k + 1 : ℕ) : ℤ) = (lvl + 1) + (k : ℤ) by push_cast; ring] at this
    rw [chanceLoop_succ_some hru, ih (lvl + 1) (acc * ru.successRate) hrec,
      Finset.prod_range_succ']
    have hf0 : successRateOf (lvl + ((0 : ℕ) : ℤ)) = ru.successRate := by
      unfold successRateOf
      rw [Nat.cast_zero, add_zero, hru]
    rw [hf0]
    have hprod : ∏ i in Finset.range n, successRateOf (lvl + ((i + 1 : ℕ) : ℤ)) =
        ∏ i in Finset.range n, successRateOf ((lvl + 1) + (i : ℤ)) := by
      refine Finset.prod_congr rfl fun i _ => ?_
      congr 1
      push_cast
      ring
    rw [hprod]
    ring

lemma prod_Icc_eq_prod_range (f : ℤ → ℚ) (a : ℤ) :
    ∀ n : ℕ, (∏ x in Finset.Icc a (a + n - 1), f x) = ∏ k in Finset.range n, f (a + k) := by
  intro n
  induction n with
  | zero =>
    rw [Finset.range_zero, Finset.prod_empty, Finset.Icc_eq_empty (by omega),
      Finset.prod_empty]
  | succ n ih =>
    have hins : Finset.Icc a (a + ((n + 1 : ℕ) : ℤ) - 1) =
        insert (a + (n : ℤ)) (Finset.Icc a (a + (n : ℤ) - 1)) := by
      ext x
      simp only [Finset.mem_Icc, Finset.mem_insert]
      omega
    rw [hins, Finset.prod_insert (by simp only [Finset.mem_Icc]; omega), ih,
      Finset.prod_range_succ]
    ring

/-- C1: for all integers `current` and `target`, the reach-target chance
is 1 when `target ≤ current`; otherwise, when every level from `current`
to `target - 1` has a defined rule it is the product of those levels'
`successRate` values, and when some level in that range has no rule it
is 0. -/
theorem claim_C1 (current target : ℤ) :
    (target ≤ current → calculateReachTargetChance current target = 1) ∧
    (current < target →
      ((∀ lvl ∈ Finset.Icc current (target - 1), (ENHANCEMENT_RULES lvl).isSome = true) →
        calculateReachTargetChance current target =
          ∏ lvl in Finset.Icc current (target - 1), successRateOf lvl) ∧
      ((∃ lvl ∈ Finset.Icc current (target - 1), ENHANCEMENT_RULES lvl = none) →
        calculateReachTargetChance current target = 0)) := by
  constructor
  · intro h
    unfold calculateReachTargetChance
    rw [if_pos h]
  · intro hlt
    have hn : (((target - current).toNat : ℕ) : ℤ) = target - current :=
      Int.toNat_of_nonneg (by omega)
    constructor
    · intro hall
      have hall' : ∀ k : ℕ, k < (target - current).toNat →
          (ENHANCEMENT_RULES (current + k)).isSome = true := by
        intro k hk
        apply hall
        rw [Finset.mem_Icc]
        omega
      unfold calculateReachTargetChance
      rw [if_neg (by omega), chanceLoop_all_some _ current 1 hall', one_mul,
        show Finset.Icc current (target - 1) =
          Finset.Icc current (current + (((target - current).toNat : ℕ) : ℤ) - 1) from by
            rw [hn]; congr 1; ring,
        prod_Icc_eq_prod_range successRateOf current ((target - current).toNat)]
    · intro ⟨lvl, hmem, hnone⟩
      rw [Finset.mem_Icc] at hmem
      unfold calculateReachTargetChance
      rw [if_neg (by omega)]
      apply chanceLoop_missing
      refine ⟨(lvl - current).toNat, by omega, ?_⟩
      rwa [show current + (((lvl - current).toNat : ℕ) : ℤ) = lvl from by omega]

theorem claim_C1_witness :
    ((3 : ℤ) ≤ 5 ∧ calculateReachTargetChance 5 3 = 1) ∧
    ((7 : ℤ) < 9 ∧
      (∀ lvl ∈ Finset.Icc (7 : ℤ) (9 - 1), (ENHANCEMENT_RULES lvl).isSome = true) ∧
      calculateReachTargetChance 7 9 = ∏ lvl in Finset.Icc (7 : ℤ) (9 - 1), successRateOf lvl) ∧
    ((14 : ℤ) < 17 ∧
      (∃ lvl ∈ Finset.Icc (14 : ℤ) (17 - 1), ENHANCEMENT_RULES lvl = none) ∧
      calculateReachTargetChance 14 17 = 0) :=
  ⟨⟨by decide, (claim_C1 5 3).1 (by decide)⟩,
   ⟨by decide, by with_unfolding_all decide,
    ((claim_C1 7 9).2 (by decide)).1 (by with_unfolding_all decide)⟩,
   ⟨by decide, by with_unfolding_all decide,
    ((claim_C1 14 17).2 (by decide)).2 (by with_unfolding_all decide)⟩⟩

/-! ### The two variants compute the same reach-target chance -/

lemma chanceLoop_simple_eq :
    ∀ (n : ℕ) (lvl : ℤ) (acc : ℚ), chanceLoopSimple lvl acc n = chanceLoop lvl acc n := by
  intro n
  induction n with
  | zero => intro lvl acc; rfl
  | succ n ih =>
    intro lvl acc
    unfold chanceLoopSimple chanceLoop
    rw [show ENHANCEMENT_RULES_SIMPLE lvl = ENHANCEMENT_RULES lvl from rfl]
    cases hru : ENHANCEMENT_RULES lvl with
    | none => rfl
    | some ru => exact ih (lvl + 1) (acc * ru.successRate)

/-- C10: the richer and the simple variant implement extensionally equal
reach-probability functions: same fifteen-entry rule table, same product
loop, equal results at every pair of integers. -/
theorem claim_C10 (current target : ℤ) :
    calculateReachTargetChance current target = calculateReachTargetChanceSimple current target := by
  unfold calculateReachTargetChance calculateReachTargetChanceSimple
  by_cases h : target ≤ current
  · rw [if_pos h, if_pos h]
  · rw [if_neg h, if_neg h, chanceLoop_simple_eq]

/-! ### The batch driver -/

lemma levelAfter_zero (start : ℤ) (l : List EnhancementResult) :
    levelAfter start l 0 = start := by
  cases l <;> rfl

lemma levelAfter_nil (start : ℤ) (j : ℕ) : levelAfter start [] j = start := by
  cases j <;> rfl

lemma levelAfter_cons (start : ℤ) (r : EnhancementResult) (rest : List EnhancementResult)
    (j : ℕ) : levelAfter start (r :: rest) (j + 1) = levelAfter r.newLevel rest j := rfl

lemma runBatchAux_spec (target : ℤ) :
    ∀ (fuel : ℕ) (rand : ℕ → ℚ × ℚ) (level : ℤ), 1 ≤ level → level ≤ 15 →
      ∃ fl outs, runBatchAux rand target fuel level = some (fl, outs) ∧
        outs.length ≤ fuel ∧
        ((target ≤ level ∨ 15 ≤ level) → outs = []) ∧
        (∀ j, j < outs.length →
          levelAfter level outs j < target ∧ levelAfter level outs j < 15) ∧
        fl = levelAfter level outs outs.length ∧
        (outs.length = fuel ∨ target ≤ fl ∨ 15 ≤ fl) ∧
        1 ≤ fl ∧ fl ≤ 15 := by
  intro fuel
  induction fuel with
  | zero =>
    intro rand level h1 h15
    exact ⟨level, [], rfl, Nat.le_refl 0, fun _ => rfl,
      fun j hj => absurd hj (Nat.not_lt_zero j), rfl, Or.inl rfl, h1, h15⟩
  | succ fuel ih =>
    intro rand level h1 h15
    by_cases hstop : target ≤ level ∨ 15 ≤ level
    · refine ⟨level, [], ?_, Nat.zero_le _, fun _ => rfl,
        fun j hj => absurd hj (Nat.not_lt_zero j), rfl, Or.inr hstop, h1, h15⟩
      conv_lhs => unfold runBatchAux
      rw [if_pos hstop]
    · push_neg at hstop
      obtain ⟨hlt_t, hlt_15⟩ := hstop
      obtain ⟨r, hr⟩ := enhance_isSome h1 h15 (rand 0).1 (rand 0).2
      have hrb := enhance_newLevel_bounds h1 (by omega) hr
      obtain ⟨fl, rest, heq, hlen, _, hpre, hfl, hterm, hfl1, hfl15⟩ :=
        ih (fun n => rand (n + 1)) r.newLevel hrb.1 hrb.2
      refine ⟨fl, r :: rest, ?_, ?_, ?_, ?_, hfl, ?_, hfl1, hfl15⟩
      · conv_lhs => unfold runBatchAux
        rw [if_neg (by omega), hr]
        simp only [Option.some_bind]
        rw [heq]
        rfl
      · simpa using Nat.succ_le_succ hlen
      · intro hc
        exact absurd hc (by omega)
      · intro j hj
        cases j with
        | zero => exact ⟨hlt_t, hlt_15⟩
        | succ j =>
          have hj' : j < rest.length := by simpa using hj
          exact hpre j hj'
      · rcases hterm with h | h
        · exact Or.inl (by simp [h])
        · exact Or.inr h

/-- C5: the batch driver produces at most `maxAttempts` outcomes; it
resolves no attempt once the running level is at or above `target` or 15
(in particular, it produces no outcome when `startLevel` already meets a
stopping condition); it stops at whichever of the three conditions occurs
first; and `finalLevel` is the running level after the last produced
outcome (`startLevel` when none was produced), always in [1,15]. -/
theorem claim_C5 (rand : ℕ → ℚ × ℚ) (startLevel target : ℤ) (maxAttempts : ℕ)
    (h1 : 1 ≤ startLevel) (h15 : startLevel ≤ 15) :
    ∃ fl outs, runBatch rand startLevel target maxAttempts = some (fl, outs) ∧
      outs.length ≤ maxAttempts ∧
      ((target ≤ startLevel ∨ 15 ≤ startLevel) → outs = []) ∧
      (∀ j, j < outs.length →
        levelAfter startLevel outs j < target ∧ levelAfter startLevel outs j < 15) ∧
      fl = levelAfter startLevel outs outs.length ∧
      (outs.length = maxAttempts ∨ target ≤ fl ∨ 15 ≤ fl) ∧
      1 ≤ fl ∧ fl ≤ 15 :=
  runBatchAux_spec target maxAttempts rand startLevel h1 h15

theorem claim_C5_witness :
    (1 ≤ (1 : ℤ)) ∧ ((1 : ℤ) ≤ 15) ∧
    ∃ fl outs, runBatch (fun _ => ((0 : ℚ), (0 : ℚ))) 1 3 5 = some (fl, outs) ∧
      outs.length ≤ 5 ∧
      (((3 : ℤ) ≤ 1 ∨ (15 : ℤ) ≤ 1) → outs = []) ∧
      (∀ j, j < outs.length →
        levelAfter 1 outs j < 3 ∧ levelAfter 1 outs j < 15) ∧
      fl = levelAfter 1 outs outs.length ∧
      (outs.length = 5 ∨ (3 : ℤ) ≤ fl ∨ (15 : ℤ) ≤ fl) ∧
      1 ≤ fl ∧ fl ≤ 15 :=
  ⟨by decide, by decide,
   claim_C5 (fun _ => ((0 : ℚ), (0 : ℚ))) 1 3 5 (by decide) (by decide)⟩

/-! ### The reach-target chance at (7, 9): exact versus double arithmetic -/

lemma successRateFrac_none_of_out {level : ℤ} (h : level < 1 ∨ 15 < level) :
    successRateFrac level = none := by
  unfold successRateFrac
  repeat rw [if_neg (by omega)]

/-- The fraction table used by the double-semantics loop is exactly the
`successRate` column of `ENHANCEMENT_RULES`. -/
lemma successRateFrac_agrees (level : ℤ) :
    (successRateFrac level).map (fun p => ((p.1 : ℚ) / (p.2 : ℚ))) =
    (ENHANCEMENT_RULES level).map (fun ru => ru.successRate) := by
  by_cases h : 1 ≤ level ∧ level ≤ 15
  · obtain ⟨h1, h15⟩ := h
    interval_cases level <;> with_unfolding_all decide
  · rw [successRateFrac_none_of_out (by omega), rules_none_of_out (by omega)]
    rfl

lemma chanceLoopFP_at_7_9 :
    chanceLoopFP 7 (fpApprox 1 1) ((9 - 7 : ℤ)).toNat = (6485183463413515, 55) := by
  decide

lemma calculateReachTargetChanceFP_at_7_9 :
    calculateReachTargetChanceFP 7 9 = (6485183463413515 : ℚ) / 2 ^ 55 := by
  unfold calculateReachTargetChanceFP
  rw [if_neg (by omega), chanceLoopFP_at_7_9]
  unfold fpVal
  norm_num

/-- C9 (amended): under exact rational arithmetic
`reachTargetProbability(7, 9)` is `0.45 × 0.40 = 0.18` exactly; under the
program's IEEE-754 double arithmetic it returns the double
`6485183463413515 × 2⁻⁵⁵ ≈ 0.18000000000000002`, one unit in the last
place above 0.18 (the doubles nearest 0.45 and 0.40 multiply and round to
a value distinct from the double nearest 0.18). -/
theorem claim_C9 :
    calculateReachTargetChance 7 9 = (0.45 : ℚ) * 0.40 ∧
    calculateReachTargetChance 7 9 = 0.18 ∧
    calculateReachTargetChanceFP 7 9 = (6485183463413515 : ℚ) / 2 ^ 55 ∧
    calculateReachTargetChanceFP 7 9 ≠ 0.18 :=
  ⟨by with_unfolding_all decide, by with_unfolding_all decide,
   calculateReachTargetChanceFP_at_7_9,
   by rw [calculateReachTargetChanceFP_at_7_9]; norm_num⟩

/-- C9, as stated ("returns exactly 0.18 under the program's
arithmetic"), is false: under IEEE-754 double arithmetic the returned
value differs from 0.18. -/
theorem claim_C9_counterexample : calculateReachTargetChanceFP 7 9 ≠ 0.18 := by
  rw [calculateReachTargetChanceFP_at_7_9]
  norm_num
